import Mathlib

/-!
Verification of the trade-signal evaluation service (`src/app.py`).

The development shallowly embeds the pure core of the program:

* `normalize_ts` — timestamp normalization (`app.py` line 85-86);
* `analyze_trade` — the trade evaluation engine (`app.py` lines 130-191),
  written as a structurally recursive scan `analyzeLoop` over the candle
  list with the loop's mutable state (`entered`, `entry_time`,
  `last_close`) passed explicitly;
* `fetch_groww_candles` / `fetchAll` — the candle fetcher's
  failure-isolation contract and the orchestrator's fan-out over the
  signal map's keys (`app.py` lines 91-113 and 276-281), with the network
  modelled as an oracle `String → FetchResult (List Candle)`;
* `signalMap`, `deriveSignal`, `aggStep`, `analyze_signals_core` — the
  signal keying, derived entry/target prices and the categorization /
  summary fold of `analyze_signals` (`app.py` lines 264 and 302-338).

Conventions: prices and quantities are rationals; times-of-day are seconds
after midnight IST as integers (`dtime(h, m)` becomes `h*3600 + m*60`,
and `strftime "%H:%M:%S"` strings are represented by the same integer,
the encoding being injective on whole seconds); epoch timestamps are
integers, converted to IST time-of-day by `todIST`.  Python's `round(x, 2)`
is modelled by `round2`, rounding to the nearest hundredth with ties to
even.
-/

/-- One OHLCV candle `(ts, o, h, l, c, v)` as unpacked by the scan loop
(`app.py` line 140). -/
structure Candle where
  ts : Int
  o : ℚ
  h : ℚ
  l : ℚ
  c : ℚ
  v : ℚ
deriving DecidableEq

/-- The fields of the (derived) signal dict that `analyze_trade` reads
(`app.py` lines 131-134). -/
structure Signal where
  entry : ℚ
  target : ℚ
  stoploss : ℚ
  qty : ℚ
deriving DecidableEq

/-- An upstream signal record as fetched: symbol, session open price,
quantity and stoploss (`app.py` lines 264 and 305-307 read exactly these
keys). -/
structure RawSignal where
  symbol : String
  openPrice : ℚ
  qty : ℚ
  stoploss : ℚ
deriving DecidableEq

/-- The `status` strings `analyze_trade` can emit, plus `ENTERED`, which
the spec's summary equation mentions. -/
inductive Status where
  | NOT_ENTERED
  | ENTERED
  | EXITED_TARGET
  | EXITED_SL
  | EXITED_MARKET_CLOSE
deriving DecidableEq

/-- The result dict of `analyze_trade` (`app.py` lines 155-191):
`entry_time`/`exit_time` are times-of-day in seconds, `exit_ltp` and `pnl`
rationals, all absent (`None`) fields are `none`. -/
structure TradeResult where
  status : Status
  entry_time : Option Int
  exit_time : Option Int
  exit_ltp : Option ℚ
  pnl : Option ℚ
  market_closed : Bool
deriving DecidableEq

/-- `MARKET_OPEN = dtime(9, 15)` (`app.py` line 34), in seconds. -/
def MARKET_OPEN : Int := 9 * 3600 + 15 * 60

/-- `MARKET_CLOSE = dtime(15, 30)` (`app.py` line 35), in seconds. -/
def MARKET_CLOSE : Int := 15 * 3600 + 30 * 60

/-- `DEFAULT_ENTRY_AFTER = dtime(9, 25)` (`app.py` line 37), in seconds. -/
def DEFAULT_ENTRY_AFTER : Int := 9 * 3600 + 25 * 60

/-- `normalize_ts` (`app.py` lines 85-86): values above `10^12` are
milliseconds and floor-divided by 1000 (Python `//`), others returned
unchanged. -/
def normalize_ts (ts : Int) : Int :=
  if ts > 1000000000000 then Int.fdiv ts 1000 else ts

/-- `datetime.fromtimestamp(ts, UTC).astimezone(IST).time()` as seconds
after midnight: IST is the fixed offset +05:30 = 19800 s (`app.py`
lines 33 and 142-143). -/
def todIST (ts : Int) : Int :=
  (ts + 19800) % 86400

/-- Floor of a rational, computably: its numerator floor-divided by its
(positive) denominator. -/
def ratFloor (x : ℚ) : Int :=
  Int.fdiv x.num x.den

/-- Round a rational to the nearest integer, ties to even — the behaviour
of Python 3's `round` on exactly representable values. -/
def roundHalfEven (x : ℚ) : Int :=
  let f := ratFloor x
  let frac := x - (f : ℚ)
  if frac < 1 / 2 then f
  else if 1 / 2 < frac then f + 1
  else if f % 2 = 0 then f else f + 1

/-- Python's `round(x, 2)`: round to the nearest hundredth, ties to
even. -/
def round2 (x : ℚ) : ℚ :=
  (roundHalfEven (100 * x) : ℚ) / 100

/-- Whether the candle at time-of-day `t` triggers the `end_before` break
(`app.py` line 146): a cutoff is configured and `t` strictly exceeds
it. -/
def cutoffHit (endBefore : Option Int) (t : Int) : Bool :=
  match endBefore with
  | some eb => decide (eb < t)
  | none => false

/-- The code after the scan loop (`app.py` lines 174-191): a forced close
at `MARKET_CLOSE` with the last observed close when entered, otherwise
`NOT_ENTERED` with every field empty. -/
def finishScan (sig : Signal) (entered : Bool) (entryTime : Option Int)
    (lastClose : Option ℚ) : TradeResult :=
  match entered, lastClose with
  | true, some lc =>
    { status := .EXITED_MARKET_CLOSE
      entry_time := entryTime
      exit_time := some MARKET_CLOSE
      exit_ltp := some lc
      pnl := some (round2 ((lc - sig.entry) * sig.qty))
      market_closed := true }
  | _, _ =>
    { status := .NOT_ENTERED
      entry_time := none
      exit_time := none
      exit_ltp := none
      pnl := none
      market_closed := false }

/-- The scan loop of `analyze_trade` (`app.py` lines 140-172) with the
loop state (`entered`, `entry_time`, `last_close`) passed explicitly.
Per candle: normalize the timestamp, take its IST time-of-day `t`, record
its close as `last_close`, break on the `end_before` cutoff, enter when
not yet entered, `t ≥ entry_after` and `h ≥ entry`, then (also on the
entering candle) exit on `h ≥ target` first, else on `l ≤ stoploss`. -/
def analyzeLoop (sig : Signal) (entryAfter : Int) (endBefore : Option Int) :
    Bool → Option Int → Option ℚ → List Candle → TradeResult
  | entered, entryTime, lastClose, [] => finishScan sig entered entryTime lastClose
  | entered, entryTime, _, cd :: rest =>
    let t := todIST (normalize_ts cd.ts)
    let lastClose := some cd.c
    if cutoffHit endBefore t then
      finishScan sig entered entryTime lastClose
    else
      let doEnter := !entered && decide (entryAfter ≤ t) && decide (sig.entry ≤ cd.h)
      let entered' := entered || doEnter
      let entryTime' := if doEnter then some t else entryTime
      if entered' then
        if sig.target ≤ cd.h then
          { status := .EXITED_TARGET
            entry_time := entryTime'
            exit_time := some t
            exit_ltp := some sig.target
            pnl := some (round2 ((sig.target - sig.entry) * sig.qty))
            market_closed := false }
        else if cd.l ≤ sig.stoploss then
          { status := .EXITED_SL
            entry_time := entryTime'
            exit_time := some t
            exit_ltp := some sig.stoploss
            pnl := some (round2 ((sig.stoploss - sig.entry) * sig.qty))
            market_closed := false }
        else analyzeLoop sig entryAfter endBefore entered' entryTime' lastClose rest
      else analyzeLoop sig entryAfter endBefore entered' entryTime' lastClose rest

/-- `analyze_trade(candles, signal, entry_after_time, end_before_time)`
(`app.py` lines 130-191): run the scan loop from the initial state
`entered = False`, `entry_time = None`, `last_close = None`. -/
def analyze_trade (candles : List Candle) (sig : Signal) (entryAfter : Int)
    (endBefore : Option Int) : TradeResult :=
  analyzeLoop sig entryAfter endBefore false none none candles

/-- The upstream response one candle request can see: an HTTP response
with a status and body, or the exceptional branch (transport error or
timeout) that `except` absorbs (`app.py` lines 105-113). -/
inductive FetchResult (α : Type) where
  | ok (status : Nat) (body : α)
  | failure
deriving DecidableEq

/-- `fetch_groww_candles` (`app.py` lines 91-113): body returned only on
HTTP 200; every other status and every raised exception yields
`(symbol, [])`. -/
def fetch_groww_candles (symbol : String) (resp : FetchResult (List Candle)) :
    String × List Candle :=
  match resp with
  | .ok status body => if status = 200 then (symbol, body) else (symbol, [])
  | .failure => (symbol, [])

/-- The orchestrator's fan-out/fan-in (`app.py` lines 276-279):
`asyncio.gather` issues one fetch per symbol and returns the
`(symbol, candles)` pairs in the symbols' order; the network is an
oracle from symbol to upstream response. -/
def fetchAll (net : String → FetchResult (List Candle)) (symbols : List String) :
    List (String × List Candle) :=
  symbols.map fun s => fetch_groww_candles s (net s)

/-- One step of Python's dict construction `{s["symbol"]: s for s in
signals}`: an existing key keeps its position and takes the new value, a
new key is appended. -/
def insertSig (m : List (String × RawSignal)) (s : RawSignal) :
    List (String × RawSignal) :=
  if m.any (fun p => p.1 = s.symbol) then
    m.map fun p => if p.1 = s.symbol then (p.1, s) else p
  else m ++ [(s.symbol, s)]

/-- `signal_map = {s["symbol"]: s for s in signals}` (`app.py` line 264):
insertion-ordered, duplicate symbols collapse to the last-seen signal. -/
def signalMap (signals : List RawSignal) : List (String × RawSignal) :=
  signals.foldl insertSig []

/-- Dict indexing `signal_map[sym]` (`app.py` line 303): the stored
signal for `sym`.  The Python lookup cannot fail there because the
candle results are fetched for exactly the map's keys; the default is
therefore dead and only makes the function total. -/
def lookupSig (m : List (String × RawSignal)) (sym : String) : RawSignal :=
  ((m.find? fun p => p.1 = sym).map Prod.snd).getD ⟨sym, 0, 0, 0⟩

/-- The derived prices of `analyze_signals` (`app.py` lines 305-307):
`entry = round(open * (1 + breakout_pct/100), 2)`,
`target = round(entry * (1 + profit_pct/100), 2)`; `stoploss` and `qty`
come from the signal unchanged. -/
def deriveSignal (breakout_pct profit_pct : ℚ) (s : RawSignal) : Signal :=
  let entry := round2 (s.openPrice * (1 + breakout_pct / 100))
  let target := round2 (entry * (1 + profit_pct / 100))
  { entry := entry, target := target, stoploss := s.stoploss, qty := s.qty }

/-- The `summary` counters of `analyze_signals` (`app.py` lines 285-291). -/
structure Summary where
  entered : Nat
  target_hit : Nat
  stoploss_hit : Nat
  market_closed : Nat
  not_entered : Nat
deriving DecidableEq

/-- The `raw_results` buckets of `analyze_signals` (`app.py` lines
293-300): `exited.profit`, `exited.stoploss`, `entered` and
`not_entered`, each an insertion-ordered mapping from symbol to the
evaluation outcome. -/
structure RawResults where
  profit : List (String × TradeResult)
  stoplossBucket : List (String × TradeResult)
  enteredBucket : List (String × TradeResult)
  notEnteredBucket : List (String × TradeResult)
deriving DecidableEq

/-- The initial `summary` (`app.py` lines 285-291). -/
def initSummary : Summary := ⟨0, 0, 0, 0, 0⟩

/-- The initial `raw_results` (`app.py` lines 293-300). -/
def initResults : RawResults := ⟨[], [], [], []⟩

/-- One iteration of the categorization loop of `analyze_signals`
(`app.py` lines 302-329): derive the entry/target prices, run
`analyze_trade`, then bump the summary counters and append the symbol to
exactly one bucket according to the status. -/
def aggStep (breakout_pct profit_pct : ℚ) (entryAfter : Int)
    (endBefore : Option Int) (m : List (String × RawSignal))
    (acc : Summary × RawResults) (item : String × List Candle) :
    Summary × RawResults :=
  let sym := item.1
  let sig := deriveSignal breakout_pct profit_pct (lookupSig m sym)
  let analysis := analyze_trade item.2 sig entryAfter endBefore
  match analysis.status with
  | .EXITED_TARGET =>
    ({ acc.1 with entered := acc.1.entered + 1, target_hit := acc.1.target_hit + 1 },
     { acc.2 with profit := acc.2.profit ++ [(sym, analysis)] })
  | .EXITED_SL =>
    ({ acc.1 with entered := acc.1.entered + 1, stoploss_hit := acc.1.stoploss_hit + 1 },
     { acc.2 with stoplossBucket := acc.2.stoplossBucket ++ [(sym, analysis)] })
  | .EXITED_MARKET_CLOSE =>
    ({ acc.1 with entered := acc.1.entered + 1, market_closed := acc.1.market_closed + 1 },
     { acc.2 with enteredBucket := acc.2.enteredBucket ++ [(sym, analysis)] })
  | _ =>
    ({ acc.1 with not_entered := acc.1.not_entered + 1 },
     { acc.2 with notEnteredBucket := acc.2.notEnteredBucket ++ [(sym, analysis)] })

/-- The pure core of `analyze_signals` (`app.py` lines 259-329): key the
fetched signals by symbol, fetch one candle sequence per key through the
orchestrator, then fold the categorization loop over the results. -/
def analyze_signals_core (breakout_pct profit_pct : ℚ) (entryAfter : Int)
    (endBefore : Option Int) (signals : List RawSignal)
    (net : String → FetchResult (List Candle)) : Summary × RawResults :=
  let m := signalMap signals
  let candleResults := fetchAll net (m.map Prod.fst)
  candleResults.foldl (aggStep breakout_pct profit_pct entryAfter endBefore m)
    (initSummary, initResults)

/-- The keys of the four output buckets, in the response's category
order. -/
def bucketKeys (r : RawResults) : List String :=
  (r.profit ++ r.stoplossBucket ++ r.enteredBucket ++ r.notEnteredBucket).map Prod.fst

/-- How many bucketed outcomes carry the non-terminal status `ENTERED`
(the last term of the spec's summary equation). -/
def enteredStatusCount (r : RawResults) : Nat :=
  ((r.profit ++ r.stoplossBucket ++ r.enteredBucket ++ r.notEnteredBucket).filter
    fun p => p.2.status = .ENTERED).length

/-- An absolute instant as an IST calendar day index and an IST
time-of-day in seconds. -/
structure Instant where
  day : Int
  tod : Int
deriving DecidableEq

/-- The absolute second count of an instant — `datetime` comparison of
two aware datetimes compares absolute time. -/
def Instant.seconds (i : Instant) : Int :=
  i.day * 86400 + i.tod

/-- The fetch window of `/api/live-candles` (`app.py` lines 199-212):
start at `dtime(9, 0)` on the trade date (today when absent), end at
`now` when the trade date is today and at `MARKET_CLOSE` otherwise. -/
def live_candles_window (dateArg : Option Int) (today : Int) (nowTod : Int) :
    Instant × Instant :=
  let trade_date := dateArg.getD today
  let market_open : Instant := ⟨trade_date, 9 * 3600⟩
  let market_close : Instant := ⟨trade_date, MARKET_CLOSE⟩
  let end_dt := if trade_date = today then ⟨today, nowTod⟩ else market_close
  (market_open, end_dt)

/-- The fetch window of `/api/analyze-signals` (`app.py` lines 266-274):
with a date, start at `MARKET_OPEN` on it and end at `now` when it is
today and at `MARKET_CLOSE` otherwise; with no date, end at `now` and
start at today's `MARKET_OPEN`, moved one day back when `now` is before
it. -/
def analyze_signals_window (dateArg : Option Int) (today : Int) (nowTod : Int) :
    Instant × Instant :=
  match dateArg with
  | some d =>
    let market_open : Instant := ⟨d, MARKET_OPEN⟩
    let market_close : Instant := ⟨d, MARKET_CLOSE⟩
    let nowInstant := if d ≠ today then market_close else ⟨today, nowTod⟩
    (market_open, nowInstant)
  | none =>
    let nowInstant : Instant := ⟨today, nowTod⟩
    let market_open : Instant := ⟨today, MARKET_OPEN⟩
    let market_open :=
      if nowInstant.seconds < market_open.seconds then ⟨today - 1, MARKET_OPEN⟩
      else market_open
    (market_open, nowInstant)

section Theorems

/- Core marks the rational arithmetic operations `@[irreducible]`, which
blocks `decide` on closed rational computations; the kernel itself ignores
reducibility, so making them semireducible for this development only lets
`decide` evaluate the definitions above on concrete inputs. -/
attribute [local semireducible] Rat.mul Rat.add Rat.sub Rat.inv

/-- The post-scan code emits only `EXITED_MARKET_CLOSE` or
`NOT_ENTERED`. -/
lemma finishScan_status (sig : Signal) (en : Bool) (et : Option Int)
    (lc : Option ℚ) :
    (finishScan sig en et lc).status = .EXITED_MARKET_CLOSE ∨
      (finishScan sig en et lc).status = .NOT_ENTERED := by
  rcases en <;> rcases lc <;> simp [finishScan]

/-- The scan loop never returns the non-terminal status `ENTERED`, from
any state. -/
lemma analyzeLoop_status_ne_entered (sig : Signal) (ea : Int)
    (eb : Option Int) :
    ∀ (cs : List Candle) (en : Bool) (et : Option Int) (lc : Option ℚ),
      (analyzeLoop sig ea eb en et lc cs).status ≠ .ENTERED := by
  intro cs
  induction cs with
  | nil =>
    intro en et lc
    rcases finishScan_status sig en et lc with h | h <;>
      simp [analyzeLoop, h]
  | cons cd rest ih =>
    intro en et lc
    simp only [analyzeLoop]
    split
    · rcases finishScan_status sig en et (some cd.c) with h | h <;> simp [h]
    · split
      · split
        · simp
        · split
          · simp
          · exact ih _ _ _
      · exact ih _ _ _

/-- From an entered state with a recorded close, the scan loop ends in
one of the three exit statuses. -/
lemma analyzeLoop_entered_exits (sig : Signal) (ea : Int) (eb : Option Int) :
    ∀ (cs : List Candle) (et : Option Int) (c : ℚ),
      (analyzeLoop sig ea eb true et (some c) cs).status = .EXITED_TARGET ∨
      (analyzeLoop sig ea eb true et (some c) cs).status = .EXITED_SL ∨
      (analyzeLoop sig ea eb true et (some c) cs).status = .EXITED_MARKET_CLOSE := by
  intro cs
  induction cs with
  | nil => intro et c; simp [analyzeLoop, finishScan]
  | cons cd rest ih =>
    intro et c
    simp only [analyzeLoop]
    split
    · simp [finishScan]
    · simp only [Bool.not_true, Bool.false_and, Bool.or_false, if_pos]
      split
      · simp
      · split
        · simp
        · exact ih ..

/-- C9 (counterexample): `normalize_ts` is not idempotent on every
integer — at `ts = 10^16` (a value whose millisecond interpretation is
itself above `10^12`) a second application divides by 1000 again. -/
theorem normalize_ts_twice_cex :
    normalize_ts (normalize_ts 10000000000000000) ≠
      normalize_ts 10000000000000000 := by decide

/-- C9 (amended): `normalize_ts` leaves values not above `10^12`
unchanged and floor-divides larger values by 1000; it is idempotent on
every timestamp not above `10^15` (in particular on every already
normalized value and every millisecond value whose second value is again
not above `10^12`), though not on every integer. -/
theorem normalize_ts_idempotent_below_1e15 (ts : Int) :
    (ts ≤ 1000000000000 → normalize_ts ts = ts) ∧
    (1000000000000 < ts → normalize_ts ts = Int.fdiv ts 1000) ∧
    (ts ≤ 1000000000000000 → normalize_ts (normalize_ts ts) = normalize_ts ts) := by
  refine ⟨fun h => ?_, fun h => ?_, fun h => ?_⟩
  · simp [normalize_ts]; omega
  · simp [normalize_ts, h]
  · by_cases h12 : ts ≤ 1000000000000
    · simp [normalize_ts]; omega
    · have h12' : 1000000000000 < ts := by omega
      have hdiv : Int.fdiv ts 1000 = ts / 1000 :=
        Int.fdiv_eq_ediv ts (by norm_num)
      have hle : ts / 1000 ≤ 1000000000000 := by
        calc ts / 1000 ≤ 1000000000000000 / 1000 :=
              Int.ediv_le_ediv (by norm_num) h
          _ = 1000000000000 := by decide
      have h1 : normalize_ts ts = ts / 1000 := by simp [normalize_ts, h12', hdiv]
      rw [h1]
      simp [normalize_ts]
      omega

/-- C1 (counterexample): in the spec's scenario — candles at 09:30
(close 100) and 09:35 (close 105), `end_before = 09:32`, entered at
09:30, target never reached — the engine does not exit at price 100: the
09:35 candle's close is recorded before the cutoff break and becomes the
exit price. -/
theorem end_before_close_update_cex :
    (analyze_trade [⟨14400, 100, 100, 100, 100, 0⟩, ⟨14700, 105, 105, 105, 105, 0⟩]
        ⟨100, 1000, 0, 1⟩ MARKET_OPEN (some (9 * 3600 + 32 * 60))).status =
      .EXITED_MARKET_CLOSE ∧
    (analyze_trade [⟨14400, 100, 100, 100, 100, 0⟩, ⟨14700, 105, 105, 105, 105, 0⟩]
        ⟨100, 1000, 0, 1⟩ MARKET_OPEN (some (9 * 3600 + 32 * 60))).exit_ltp ≠
      some 100 := by decide

/-- C1 (amended): the candle that breaks the `end_before` cutoff is
excluded from entry and exit checks, but its close is recorded before
the break; in the scenario (candles 09:30 close 100 and 09:35 close 105,
`end_before = 09:32`, entered at 09:30, target never reached) the engine
returns `EXITED_MARKET_CLOSE` with exit price 105, the breaking candle's
close. -/
theorem end_before_scenario_result :
    analyze_trade [⟨14400, 100, 100, 100, 100, 0⟩, ⟨14700, 105, 105, 105, 105, 0⟩]
        ⟨100, 1000, 0, 1⟩ MARKET_OPEN (some (9 * 3600 + 32 * 60)) =
      { status := .EXITED_MARKET_CLOSE
        entry_time := some (9 * 3600 + 30 * 60)
        exit_time := some MARKET_CLOSE
        exit_ltp := some 105
        pnl := some 5
        market_closed := true } := by decide

/-- C2: whenever the scan, already entered, meets the candle that breaks
the `end_before` cutoff, that candle's close has already been recorded,
and the forced close exits at exactly the breaking candle's close. -/
theorem cutoff_break_uses_breaking_close (sig : Signal) (entryAfter eb : Int)
    (entryTime : Option Int) (lastClose : Option ℚ) (cd : Candle)
    (rest : List Candle) (h : eb < todIST (normalize_ts cd.ts)) :
    analyzeLoop sig entryAfter (some eb) true entryTime lastClose (cd :: rest) =
      { status := .EXITED_MARKET_CLOSE
        entry_time := entryTime
        exit_time := some MARKET_CLOSE
        exit_ltp := some cd.c
        pnl := some (round2 ((cd.c - sig.entry) * sig.qty))
        market_closed := true } := by
  simp [analyzeLoop, cutoffHit, h, finishScan]

/-- C2 (witness): the breaking-candle close rule at a concrete input —
entered, last close 100, breaking candle at 09:35 with close 105,
cutoff 09:32: the exit price is 105. -/
theorem cutoff_break_uses_breaking_close_witness :
    analyzeLoop ⟨100, 1000, 0, 1⟩ 33300 (some 34320) true (some 34200)
        (some 100) [⟨14700, 105, 105, 105, 105, 0⟩] =
      { status := .EXITED_MARKET_CLOSE
        entry_time := some 34200
        exit_time := some MARKET_CLOSE
        exit_ltp := some 105
        pnl := some (round2 ((105 - 100) * 1))
        market_closed := true } :=
  cutoff_break_uses_breaking_close ⟨100, 1000, 0, 1⟩ 33300 34320 (some 34200)
    (some 100) ⟨14700, 105, 105, 105, 105, 0⟩ [] (by decide)

/-- C3: on any candle processed in state `ENTERED` — including the very
candle that caused entry — whose high reaches the target, the scan
terminates with `EXITED_TARGET` at exit price `target`, even when the
same candle's low also reaches the stoploss: target is checked first,
so such a candle never produces `EXITED_SL`. -/
theorem same_candle_target_tiebreak (sig : Signal) (entryAfter : Int)
    (endBefore : Option Int) (entered : Bool) (entryTime : Option Int)
    (lastClose : Option ℚ) (cd : Candle) (rest : List Candle)
    (hcut : cutoffHit endBefore (todIST (normalize_ts cd.ts)) = false)
    (henter : entered = true ∨
      (entryAfter ≤ todIST (normalize_ts cd.ts) ∧ sig.entry ≤ cd.h))
    (htarget : sig.target ≤ cd.h) (_hstop : cd.l ≤ sig.stoploss) :
    (analyzeLoop sig entryAfter endBefore entered entryTime lastClose
        (cd :: rest)).status = .EXITED_TARGET ∧
    (analyzeLoop sig entryAfter endBefore entered entryTime lastClose
        (cd :: rest)).exit_ltp = some sig.target := by
  rcases henter with h1 | ⟨h2, h3⟩
  · subst h1
    simp [analyzeLoop, hcut, htarget]
  · simp [analyzeLoop, hcut, htarget, h2, h3]

/-- C3 (witness): a concrete candle that both enters and straddles
target and stoploss — high 107 ≥ target 106, low 80 ≤ stoploss 90 —
exits on target at price 106. -/
theorem same_candle_target_tiebreak_witness :
    (analyzeLoop ⟨103, 106, 90, 1⟩ 33300 none false none none
        [⟨14400, 104, 107, 80, 105, 0⟩]).status = .EXITED_TARGET ∧
    (analyzeLoop ⟨103, 106, 90, 1⟩ 33300 none false none none
        [⟨14400, 104, 107, 80, 105, 0⟩]).exit_ltp = some 106 :=
  same_candle_target_tiebreak ⟨103, 106, 90, 1⟩ 33300 none false none none
    ⟨14400, 104, 107, 80, 105, 0⟩ [] (by decide)
    (Or.inr ⟨by decide, by decide⟩) (by decide) (by decide)

/-- C4 (counterexample): the derived entry price is not exactly
`open * (1 + breakout_pct/100)`: with `open = 100` and
`breakout_pct = 3.333` the exact value 103.333 is rounded to two
decimals, 103.33. -/
theorem derived_entry_not_exact_cex :
    (deriveSignal (3333 / 1000) 3 ⟨"X", 100, 1, 95⟩).entry ≠
      100 * (1 + (3333 / 1000 : ℚ) / 100) := by decide

/-- C4 (amended): the evaluation's derived prices follow the spec's
formulas composed with rounding to two decimals:
`entry = round(open * (1 + breakout_pct/100), 2)` and
`target = round(entry * (1 + profit_pct/100), 2)`; stoploss and
quantity pass through unchanged. -/
theorem derived_prices_rounded (bp pp : ℚ) (s : RawSignal) :
    (deriveSignal bp pp s).entry = round2 (s.openPrice * (1 + bp / 100)) ∧
    (deriveSignal bp pp s).target =
      round2 (round2 (s.openPrice * (1 + bp / 100)) * (1 + pp / 100)) ∧
    (deriveSignal bp pp s).stoploss = s.stoploss ∧
    (deriveSignal bp pp s).qty = s.qty := by
  refine ⟨rfl, rfl, rfl, rfl⟩

/-- C5 (counterexample): for an explicitly supplied trade date the
candle-fetch endpoint does not start its window at the 09:15 session
open — it starts at 09:00 on that date. -/
theorem live_candles_window_start_cex :
    (live_candles_window (some 0) 1 40000).1 = ⟨0, 9 * 3600⟩ ∧
    (live_candles_window (some 0) 1 40000).1.tod ≠ MARKET_OPEN := by
  constructor
  · simp [live_candles_window, MARKET_CLOSE]
  · simp [live_candles_window, MARKET_OPEN]

/-- C5 (amended): for an explicit trade date, the signal-evaluation
endpoint starts its fetch window at 09:15 (`MARKET_OPEN`) on that date
while the candle endpoint starts at 09:00 on that date; both end at the
current instant when the date is today and at the 15:30 session close
otherwise; with no date supplied, the signal-evaluation window starts at
today's 09:15, moved to the previous day's 09:15 when the current time
is before it, and the candle endpoint defaults the date to today. -/
theorem window_resolution (d today nowTod : Int) :
    (analyze_signals_window (some d) today nowTod).1 = ⟨d, MARKET_OPEN⟩ ∧
    (live_candles_window (some d) today nowTod).1 = ⟨d, 9 * 3600⟩ ∧
    (d = today →
      (analyze_signals_window (some d) today nowTod).2 = ⟨today, nowTod⟩ ∧
      (live_candles_window (some d) today nowTod).2 = ⟨today, nowTod⟩) ∧
    (d ≠ today →
      (analyze_signals_window (some d) today nowTod).2 = ⟨d, MARKET_CLOSE⟩ ∧
      (live_candles_window (some d) today nowTod).2 = ⟨d, MARKET_CLOSE⟩) ∧
    (nowTod < MARKET_OPEN →
      (analyze_signals_window none today nowTod).1 = ⟨today - 1, MARKET_OPEN⟩) ∧
    (MARKET_OPEN ≤ nowTod →
      (analyze_signals_window none today nowTod).1 = ⟨today, MARKET_OPEN⟩) ∧
    (analyze_signals_window none today nowTod).2 = ⟨today, nowTod⟩ ∧
    (live_candles_window none today nowTod).1 = ⟨today, 9 * 3600⟩ := by
  refine ⟨rfl, rfl, fun h => ?_, fun h => ?_, fun h => ?_, fun h => ?_, rfl, rfl⟩
  · subst h; simp [analyze_signals_window, live_candles_window]
  · simp [analyze_signals_window, live_candles_window, h, Ne.symm h]
  · have : (⟨today, nowTod⟩ : Instant).seconds <
        (⟨today, MARKET_OPEN⟩ : Instant).seconds := by
      simp only [Instant.seconds]; omega
    simp [analyze_signals_window, this]
  · have : ¬ (⟨today, nowTod⟩ : Instant).seconds <
        (⟨today, MARKET_OPEN⟩ : Instant).seconds := by
      simp only [Instant.seconds]; omega
    simp [analyze_signals_window, this]

/-- The fetcher tags its result with the requested symbol whatever the
upstream response was. -/
lemma fetch_groww_candles_fst (s : String) (r : FetchResult (List Candle)) :
    (fetch_groww_candles s r).1 = s := by
  rcases r with ⟨st, body⟩ | _
  · simp only [fetch_groww_candles]; split <;> rfl
  · rfl

/-- The fan-in keeps exactly the requested symbols, in order. -/
lemma fetchAll_keys (net : String → FetchResult (List Candle))
    (symbols : List String) :
    (fetchAll net symbols).map Prod.fst = symbols := by
  simp [fetchAll, List.map_map, Function.comp_def, fetch_groww_candles_fst]

/-- C6: the candle fetcher is total on every upstream outcome — any
non-200 status and the exceptional branch (transport error, timeout)
yield the empty candle list rather than an error — the orchestrator's
fan-in has exactly one entry per requested symbol, and an empty candle
list evaluates to `NOT_ENTERED`. -/
theorem fetch_failure_isolation (net : String → FetchResult (List Candle))
    (symbols : List String) (sig : Signal) (ea : Int) (eb : Option Int)
    (s : String) (st : Nat) (body : List Candle) :
    (fetchAll net symbols).map Prod.fst = symbols ∧
    (st ≠ 200 → fetch_groww_candles s (.ok st body) = (s, [])) ∧
    fetch_groww_candles s .failure = (s, []) ∧
    (analyze_trade [] sig ea eb).status = .NOT_ENTERED := by
  refine ⟨fetchAll_keys net symbols, fun h => ?_, rfl, rfl⟩
  simp [fetch_groww_candles, h]

/-- Whenever the scan loop exits on target or stoploss, the recorded
pnl is the corresponding rounded difference times the quantity, from any
loop state. -/
lemma analyzeLoop_pnl (sig : Signal) (ea : Int) (eb : Option Int) :
    ∀ (cs : List Candle) (en : Bool) (et : Option Int) (lc : Option ℚ),
      ((analyzeLoop sig ea eb en et lc cs).status = .EXITED_TARGET →
        (analyzeLoop sig ea eb en et lc cs).pnl =
          some (round2 ((sig.target - sig.entry) * sig.qty))) ∧
      ((analyzeLoop sig ea eb en et lc cs).status = .EXITED_SL →
        (analyzeLoop sig ea eb en et lc cs).pnl =
          some (round2 ((sig.stoploss - sig.entry) * sig.qty))) := by
  intro cs
  induction cs with
  | nil =>
    intro en et lc
    rcases finishScan_status sig en et lc with hs | hs <;>
      simp [analyzeLoop, hs]
  | cons cd rest ih =>
    intro en et lc
    simp only [analyzeLoop]
    split
    · rcases finishScan_status sig en et (some cd.c) with hs | hs <;> simp [hs]
    · split
      · split
        · simp
        · split
          · simp
          · exact ih _ _ _
      · exact ih _ _ _

/-- C8: a result with status `EXITED_TARGET` carries
`pnl = round((target - entry) * qty, 2)` and a result with status
`EXITED_SL` carries `pnl = round((stoploss - entry) * qty, 2)`, for
every candle sequence and signal. -/
theorem exit_pnl_formulas (candles : List Candle) (sig : Signal) (ea : Int)
    (eb : Option Int) :
    ((analyze_trade candles sig ea eb).status = .EXITED_TARGET →
      (analyze_trade candles sig ea eb).pnl =
        some (round2 ((sig.target - sig.entry) * sig.qty))) ∧
    ((analyze_trade candles sig ea eb).status = .EXITED_SL →
      (analyze_trade candles sig ea eb).pnl =
        some (round2 ((sig.stoploss - sig.entry) * sig.qty))) :=
  analyzeLoop_pnl sig ea eb candles false none none

/-- Each categorization step leaves the count of `ENTERED`-status
outcomes unchanged: the appended outcome never has status `ENTERED`. -/
lemma aggStep_enteredStatusCount (bp pp : ℚ) (ea : Int) (eb : Option Int)
    (m : List (String × RawSignal)) (acc : Summary × RawResults)
    (item : String × List Candle) :
    enteredStatusCount (aggStep bp pp ea eb m acc item).2 =
      enteredStatusCount acc.2 := by
  have hne : (analyze_trade item.2 (deriveSignal bp pp (lookupSig m item.1))
      ea eb).status ≠ .ENTERED :=
    analyzeLoop_status_ne_entered _ _ _ _ _ _ _
  simp only [aggStep]
  rcases hst : (analyze_trade item.2 (deriveSignal bp pp (lookupSig m item.1))
      ea eb).status with _ | _ | _ | _ | _
  · simp [hst, enteredStatusCount, List.filter_append]
  · exact absurd hst hne
  · simp [hst, enteredStatusCount, List.filter_append]
  · simp [hst, enteredStatusCount, List.filter_append]
  · simp [hst, enteredStatusCount, List.filter_append]

/-- Folding the categorization loop never creates an `ENTERED`-status
outcome. -/
lemma foldl_enteredStatusCount (bp pp : ℚ) (ea : Int) (eb : Option Int)
    (m : List (String × RawSignal)) :
    ∀ (l : List (String × List Candle)) (acc : Summary × RawResults),
      enteredStatusCount ((l.foldl (aggStep bp pp ea eb m) acc).2) =
        enteredStatusCount acc.2 := by
  intro l
  induction l with
  | nil => intro acc; rfl
  | cons x xs ih =>
    intro acc
    rw [List.foldl_cons, ih, aggStep_enteredStatusCount]

/-- C10: the evaluation engine never returns the non-terminal status
`ENTERED`; once entered (with the entering candle's close recorded) the
scan can only end in `EXITED_TARGET`, `EXITED_SL` or
`EXITED_MARKET_CLOSE` — never `NOT_ENTERED` — and consequently the
`ENTERED`-status term of the summary equation is zero on every run of
the aggregation. -/
theorem engine_never_reports_entered (candles : List Candle) (sig : Signal)
    (ea : Int) (eb : Option Int) (et : Option Int) (c : ℚ) (bp pp : ℚ)
    (signals : List RawSignal) (net : String → FetchResult (List Candle)) :
    (analyze_trade candles sig ea eb).status ≠ .ENTERED ∧
    ((analyzeLoop sig ea eb true et (some c) candles).status = .EXITED_TARGET ∨
     (analyzeLoop sig ea eb true et (some c) candles).status = .EXITED_SL ∨
     (analyzeLoop sig ea eb true et (some c) candles).status =
       .EXITED_MARKET_CLOSE) ∧
    enteredStatusCount (analyze_signals_core bp pp ea eb signals net).2 = 0 := by
  refine ⟨analyzeLoop_status_ne_entered sig ea eb candles false none none,
    analyzeLoop_entered_exits sig ea eb candles et c, ?_⟩
  simp only [analyze_signals_core]
  rw [foldl_enteredStatusCount]
  rfl

/-- Each categorization step appends the item's symbol to exactly one
bucket: per symbol, the bucket-key count grows by one for the item's
symbol and is untouched otherwise. -/
lemma aggStep_bucketKeys_count (bp pp : ℚ) (ea : Int) (eb : Option Int)
    (m : List (String × RawSignal)) (acc : Summary × RawResults)
    (item : String × List Candle) (sym : String) :
    (bucketKeys (aggStep bp pp ea eb m acc item).2).count sym =
      (bucketKeys acc.2).count sym + (if item.1 = sym then 1 else 0) := by
  simp only [aggStep]
  rcases hst : (analyze_trade item.2 (deriveSignal bp pp (lookupSig m item.1))
      ea eb).status with _ | _ | _ | _ | _ <;>
    simp [hst, bucketKeys, List.map_append, List.count_append,
      List.count_singleton] <;>
    by_cases hc : item.1 = sym <;> simp [hc, List.count_cons] <;> omega

/-- Each categorization step grows the total bucket membership by
exactly one. -/
lemma aggStep_bucketKeys_length (bp pp : ℚ) (ea : Int) (eb : Option Int)
    (m : List (String × RawSignal)) (acc : Summary × RawResults)
    (item : String × List Candle) :
    (bucketKeys (aggStep bp pp ea eb m acc item).2).length =
      (bucketKeys acc.2).length + 1 := by
  simp only [aggStep]
  rcases hst : (analyze_trade item.2 (deriveSignal bp pp (lookupSig m item.1))
      ea eb).status with _ | _ | _ | _ | _ <;>
    simp [hst, bucketKeys, List.map_append, List.length_append] <;> omega

/-- Each categorization step preserves the summary equation
`entered = target_hit + stoploss_hit + market_closed + #ENTERED`. -/
lemma aggStep_summary_inv (bp pp : ℚ) (ea : Int) (eb : Option Int)
    (m : List (String × RawSignal)) (acc : Summary × RawResults)
    (item : String × List Candle)
    (h : acc.1.entered = acc.1.target_hit + acc.1.stoploss_hit +
      acc.1.market_closed + enteredStatusCount acc.2) :
    (aggStep bp pp ea eb m acc item).1.entered =
      (aggStep bp pp ea eb m acc item).1.target_hit +
      (aggStep bp pp ea eb m acc item).1.stoploss_hit +
      (aggStep bp pp ea eb m acc item).1.market_closed +
      enteredStatusCount (aggStep bp pp ea eb m acc item).2 := by
  have hne : (analyze_trade item.2 (deriveSignal bp pp (lookupSig m item.1))
      ea eb).status ≠ .ENTERED :=
    analyzeLoop_status_ne_entered _ _ _ _ _ _ _
  simp only [aggStep]
  rcases hst : (analyze_trade item.2 (deriveSignal bp pp (lookupSig m item.1))
      ea eb).status with _ | _ | _ | _ | _
  · simp [hst, enteredStatusCount, List.filter_append] at h ⊢; omega
  · exact absurd hst hne
  · simp [hst, enteredStatusCount, List.filter_append] at h ⊢; omega
  · simp [hst, enteredStatusCount, List.filter_append] at h ⊢; omega
  · simp [hst, enteredStatusCount, List.filter_append] at h ⊢; omega

/-- Folding the categorization loop: final per-symbol bucket counts are
the accumulator's plus the item keys' multiplicities. -/
lemma foldl_bucketKeys_count (bp pp : ℚ) (ea : Int) (eb : Option Int)
    (m : List (String × RawSignal)) :
    ∀ (l : List (String × List Candle)) (acc : Summary × RawResults)
      (sym : String),
      (bucketKeys ((l.foldl (aggStep bp pp ea eb m) acc).2)).count sym =
        (bucketKeys acc.2).count sym + (l.map Prod.fst).count sym := by
  intro l
  induction l with
  | nil => intro acc sym; simp
  | cons x xs ih =>
    intro acc sym
    rw [List.foldl_cons, ih, aggStep_bucketKeys_count, List.map_cons,
      List.count_cons]
    by_cases hc : x.1 = sym <;> simp [hc] <;> try omega

/-- Folding the categorization loop: total bucket membership is the
accumulator's plus the item count. -/
lemma foldl_bucketKeys_length (bp pp : ℚ) (ea : Int) (eb : Option Int)
    (m : List (String × RawSignal)) :
    ∀ (l : List (String × List Candle)) (acc : Summary × RawResults),
      (bucketKeys ((l.foldl (aggStep bp pp ea eb m) acc).2)).length =
        (bucketKeys acc.2).length + l.length := by
  intro l
  induction l with
  | nil => intro acc; simp
  | cons x xs ih =>
    intro acc
    rw [List.foldl_cons, ih, aggStep_bucketKeys_length]
    simp only [List.length_cons]
    omega

/-- Folding the categorization loop preserves the summary equation. -/
lemma foldl_summary_inv (bp pp : ℚ) (ea : Int) (eb : Option Int)
    (m : List (String × RawSignal)) :
    ∀ (l : List (String × List Candle)) (acc : Summary × RawResults),
      acc.1.entered = acc.1.target_hit + acc.1.stoploss_hit +
        acc.1.market_closed + enteredStatusCount acc.2 →
      (l.foldl (aggStep bp pp ea eb m) acc).1.entered =
        (l.foldl (aggStep bp pp ea eb m) acc).1.target_hit +
        (l.foldl (aggStep bp pp ea eb m) acc).1.stoploss_hit +
        (l.foldl (aggStep bp pp ea eb m) acc).1.market_closed +
        enteredStatusCount (l.foldl (aggStep bp pp ea eb m) acc).2 := by
  intro l
  induction l with
  | nil => intro acc h; exact h
  | cons x xs ih =>
    intro acc h
    rw [List.foldl_cons]
    exact ih _ (aggStep_summary_inv bp pp ea eb m acc x h)

/-- The keys of the signal map after one insertion: unchanged when the
symbol is already present, extended by it otherwise. -/
lemma insertSig_keys (m : List (String × RawSignal)) (s : RawSignal) :
    (insertSig m s).map Prod.fst =
      if m.any (fun p => p.1 = s.symbol) then m.map Prod.fst
      else m.map Prod.fst ++ [s.symbol] := by
  unfold insertSig
  split
  · rw [List.map_map]
    exact List.map_congr_left fun p _ => by
      by_cases hc : p.1 = s.symbol <;> simp [hc]
  · simp

/-- The signal map's keys never repeat: duplicate symbols overwrite in
place. -/
lemma signalMap_keys_nodup (signals : List RawSignal) :
    ((signalMap signals).map Prod.fst).Nodup := by
  suffices h : ∀ m : List (String × RawSignal), (m.map Prod.fst).Nodup →
      ((signals.foldl insertSig m).map Prod.fst).Nodup from
    h [] (by simp)
  induction signals with
  | nil => intro m hm; exact hm
  | cons s rest ih =>
    intro m hm
    rw [List.foldl_cons]
    apply ih
    rw [insertSig_keys]
    split
    · exact hm
    · rename_i hany
      have hnot : s.symbol ∉ m.map Prod.fst := by
        intro hmem
        rcases List.mem_map.1 hmem with ⟨p, hp, hfst⟩
        exact hany (List.any_eq_true.2 ⟨p, hp, by simp [hfst]⟩)
      simp [List.nodup_append, hm, hnot]

/-- C7: every distinct signal symbol lands in exactly one of the four
output buckets, the bucket memberships sum to the number of distinct
signal symbols, and the summary satisfies
`entered = target_hit + stoploss_hit + market_closed + #ENTERED`. -/
theorem aggregation_partition (bp pp : ℚ) (ea : Int) (eb : Option Int)
    (signals : List RawSignal) (net : String → FetchResult (List Candle)) :
    (bucketKeys (analyze_signals_core bp pp ea eb signals net).2).length =
      (signalMap signals).length ∧
    (∀ sym ∈ (signalMap signals).map Prod.fst,
      (bucketKeys (analyze_signals_core bp pp ea eb signals net).2).count sym
        = 1) ∧
    (analyze_signals_core bp pp ea eb signals net).1.entered =
      (analyze_signals_core bp pp ea eb signals net).1.target_hit +
      (analyze_signals_core bp pp ea eb signals net).1.stoploss_hit +
      (analyze_signals_core bp pp ea eb signals net).1.market_closed +
      enteredStatusCount (analyze_signals_core bp pp ea eb signals net).2 := by
  have hkeys := fetchAll_keys net ((signalMap signals).map Prod.fst)
  refine ⟨?_, fun sym hmem => ?_, ?_⟩
  · simp only [analyze_signals_core]
    rw [foldl_bucketKeys_length]
    simp [fetchAll, bucketKeys, initResults]
  · simp only [analyze_signals_core]
    rw [foldl_bucketKeys_count, hkeys]
    have h1 : ((signalMap signals).map Prod.fst).count sym = 1 :=
      List.count_eq_one_of_mem (signalMap_keys_nodup signals) hmem
    simp [initResults, bucketKeys, h1]
  · simp only [analyze_signals_core]
    exact foldl_summary_inv bp pp ea eb (signalMap signals) _ _ rfl

end Theorems
